import Mathlib

/-!
# ConBank — Ledger Reconciliation Engine, shallow embedding

Shallow embedding of the ConBank repository's reconciliation pipeline and of
the frontend client code (`src/frontend/src/services/api.ts`,
`src/frontend/src/App.tsx`).

The repository ships only the frontend; the backend reconciliation engine
(Balance Accumulator, Payment Allocator, Status Classifier, Divergence
Detector, Reconciliation Orchestrator) is not present under `src/`.  Those
components are therefore modelled from the specification (spec.md §3–§4),
faithfully to its words; each such definition carries a doc comment starting
`Modelled from the spec:`.  Definitions taken from actual source files name
the file they embed.

Monetary amounts are fixed-point decimals with two fractional digits; they are
embedded as integers counting cents (so `0.01` currency unit is `1`).  The
fixed absolute tolerance of the spec (§4.4, "e.g., 0.01 currency unit") is
`TOL = 1` cent.
-/

namespace ConBank

/-- Entry kind (spec §3 LedgerEntry.kind): `DEBIT` = amount owed increases
(purchase/invoice), `CREDIT` = amount owed decreases (payment). -/
inductive Kind where
  | DEBIT
  | CREDIT
deriving DecidableEq, Repr

/-- Modelled from the spec: one recorded movement on a supplier's account
(spec §3 LedgerEntry).  `date` abstracts the calendar date as a number; the
list order of entries is the fixed ingestion order (date, batch, insertion
sequence), which no downstream component re-sorts.  Amounts are in cents. -/
structure LedgerEntry where
  date : Nat
  kind : Kind
  amountDebit : Int
  amountCredit : Int
deriving DecidableEq, Repr

/-- Input-contract validity (spec §6): amounts are non-negative and the amount
field not selected by `kind` is zero.  Malformed entries are rejected at the
ingestion boundary and never reach the core. -/
def EntryOk (e : LedgerEntry) : Prop :=
  0 ≤ e.amountDebit ∧ 0 ≤ e.amountCredit ∧
    (e.kind = Kind.DEBIT → e.amountCredit = 0) ∧
    (e.kind = Kind.CREDIT → e.amountDebit = 0)

instance (e : LedgerEntry) : Decidable (EntryOk e) := by
  unfold EntryOk; infer_instance

/-- Fixed absolute decimal tolerance (spec §4.4): 0.01 currency unit = 1 cent. -/
def TOL : Int := 1

/-! ## Balance Accumulator (spec §4.1) -/

/-- Modelled from the spec: `totalCredit = Σ amountCredit` (spec §4.1). -/
def totalCredit (es : List LedgerEntry) : Int :=
  (es.map (fun e => e.amountCredit)).sum

/-- Modelled from the spec: `totalDebit = Σ amountDebit` (spec §4.1). -/
def totalDebit (es : List LedgerEntry) : Int :=
  (es.map (fun e => e.amountDebit)).sum

/-- Modelled from the spec: the running balance after one entry — each entry
moves the balance by `amountCredit − amountDebit` (spec §3 sign convention:
credit decreases the amount owed, debit increases it; spec §4.1 left fold). -/
def balStep (b : Int) (e : LedgerEntry) : Int :=
  b + e.amountCredit - e.amountDebit

/-- Modelled from the spec: the running-balance sequence (`saldo_apos` after
each entry), a left fold in ingestion order (spec §4.1). -/
def runningBalances (opening : Option Int) (es : List LedgerEntry) : List Int :=
  (es.scanl balStep (opening.getD 0)).drop 1

/-- Modelled from the spec: the final balance, the value of the §4.1 left fold
after the last entry; `openingBalance` is optional and defaults to 0. -/
def finalBalance (opening : Option Int) (es : List LedgerEntry) : Int :=
  es.foldl balStep (opening.getD 0)

theorem foldl_balStep (es : List LedgerEntry) (b : Int) :
    es.foldl balStep b = b + totalCredit es - totalDebit es := by
  induction es generalizing b with
  | nil => simp [totalCredit, totalDebit]
  | cons e es ih =>
      simp only [List.foldl_cons, ih, totalCredit, totalDebit, List.map_cons,
        List.sum_cons, balStep]
      ring

/-! ## Payment Allocator (spec §4.2) -/

/-- Modelled from the spec: an open DEBIT "lot" of the allocator queue — a
DEBIT entry with its original amount and the amount settled against it so far
(spec §4.2). -/
structure Lot where
  date : Nat
  originalAmount : Int
  amountSettled : Int
deriving DecidableEq, Repr

/-- `remainingAmount = originalAmount − amountSettled` (spec §3
PendingInvoice invariant). -/
def Lot.remainingAmount (l : Lot) : Int :=
  l.originalAmount - l.amountSettled

/-- Modelled from the spec: allocator state — the queue of DEBIT lots in
chronological order plus the accumulated unconsumed credit surplus
(spec §4.2). -/
structure AllocState where
  lots : List Lot
  surplus : Int
deriving DecidableEq, Repr

/-- Modelled from the spec: consume a CREDIT amount against the lot queue,
oldest still-open lot first, taking `min(creditRemaining, lotRemaining)` at
each lot (spec §4.2); returns the updated lots and the unconsumed leftover. -/
def applyCredit : List Lot → Int → List Lot × Int
  | [], c => ([], c)
  | l :: ls, c =>
      let take := min c l.remainingAmount
      let res := applyCredit ls (c - take)
      ({ l with amountSettled := l.amountSettled + take } :: res.1, res.2)

/-- Modelled from the spec: one allocator step (spec §4.2).  A zero-amount
entry is ignored (§4.2 edge cases).  A DEBIT opens a new lot at the end of the
queue, immediately offset by the residual credit surplus (only DEBIT entries
appearing after a surplus-producing credit can be offset by it, oldest-first
going forward).  A CREDIT is consumed against the open lots oldest-first and
its leftover is carried forward as surplus. -/
def allocStep (st : AllocState) (e : LedgerEntry) : AllocState :=
  match e.kind with
  | Kind.DEBIT =>
      if e.amountDebit = 0 then st
      else
        let take := min st.surplus e.amountDebit
        { lots := st.lots ++
            [{ date := e.date, originalAmount := e.amountDebit,
               amountSettled := take }],
          surplus := st.surplus - take }
  | Kind.CREDIT =>
      if e.amountCredit = 0 then st
      else
        let res := applyCredit st.lots e.amountCredit
        { lots := res.1, surplus := st.surplus + res.2 }

/-- Modelled from the spec: chronological FIFO allocation — process the
supplier's entries in their fixed order starting from an empty lot queue and
zero surplus (spec §4.2). -/
def allocate (es : List LedgerEntry) : AllocState :=
  es.foldl allocStep { lots := [], surplus := 0 }

/-- Modelled from the spec: the PendingInvoice records — only DEBIT lots with
remaining amount > 0 at the end are materialized (spec §3, §4.2). -/
def pendingInvoices (es : List LedgerEntry) : List Lot :=
  (allocate es).lots.filter (fun l => decide (0 < l.remainingAmount))

/-- Modelled from the spec: `amountPayable = Σ remainingAmount over all
PendingInvoice records` (spec §4.3). -/
def amountPayable (es : List LedgerEntry) : Int :=
  ((pendingInvoices es).map Lot.remainingAmount).sum

/-- A well-formed lot: settled between 0 and the original amount. -/
def LotOk (l : Lot) : Prop :=
  0 ≤ l.amountSettled ∧ l.amountSettled ≤ l.originalAmount

/-- Sum of original amounts over a lot queue. -/
def originalSum (ls : List Lot) : Int :=
  (ls.map (fun l => l.originalAmount)).sum

/-- Sum of settled amounts over a lot queue. -/
def settledSum (ls : List Lot) : Int :=
  (ls.map (fun l => l.amountSettled)).sum

theorem applyCredit_settledSum (ls : List Lot) (c : Int) :
    settledSum (applyCredit ls c).1 + (applyCredit ls c).2 =
      settledSum ls + c := by
  induction ls generalizing c with
  | nil => simp [applyCredit, settledSum]
  | cons l ls ih =>
      simp only [applyCredit, settledSum, List.map_cons, List.sum_cons]
      have h := ih (c - min c l.remainingAmount)
      simp only [settledSum] at h
      omega

theorem applyCredit_originalSum (ls : List Lot) (c : Int) :
    originalSum (applyCredit ls c).1 = originalSum ls := by
  induction ls generalizing c with
  | nil => simp [applyCredit]
  | cons l ls ih =>
      simp only [applyCredit, originalSum, List.map_cons, List.sum_cons]
      have h := ih (c - min c l.remainingAmount)
      simp only [originalSum] at h
      omega

theorem applyCredit_ok (ls : List Lot) (c : Int) (hc : 0 ≤ c)
    (h : ∀ l ∈ ls, LotOk l) :
    (∀ l ∈ (applyCredit ls c).1, LotOk l) ∧ 0 ≤ (applyCredit ls c).2 := by
  induction ls generalizing c with
  | nil => simpa [applyCredit] using hc
  | cons l ls ih =>
      have hl : LotOk l := h l (List.mem_cons_self l ls)
      have hls : ∀ x ∈ ls, LotOk x := fun x hx => h x (List.mem_cons_of_mem l hx)
      have htake0 : 0 ≤ min c l.remainingAmount := by
        have : 0 ≤ l.remainingAmount := by
          unfold Lot.remainingAmount; rcases hl with ⟨h1, h2⟩; omega
        exact le_min hc this
      have hc' : 0 ≤ c - min c l.remainingAmount := by omega
      obtain ⟨h1, h2⟩ := ih (c - min c l.remainingAmount) hc' hls
      refine ⟨?_, h2⟩
      intro x hx
      rcases List.mem_cons.mp hx with hx | hx
      · subst hx
        rcases hl with ⟨ha, hb⟩
        constructor
        · simpa using by omega
        · simp only [Lot.remainingAmount] at htake0 ⊢
          have : min c l.remainingAmount ≤ l.originalAmount - l.amountSettled :=
            min_le_right _ _
          simpa using by omega
      · exact h1 x hx

/-- Allocator state invariant: every lot is well-formed and the surplus is
non-negative. -/
def StateOk (st : AllocState) : Prop :=
  (∀ l ∈ st.lots, LotOk l) ∧ 0 ≤ st.surplus

theorem allocStep_ok (st : AllocState) (e : LedgerEntry) (he : EntryOk e)
    (h : StateOk st) : StateOk (allocStep st e) := by
  obtain ⟨hd, hc, _, _⟩ := he
  obtain ⟨hlots, hsur⟩ := h
  unfold allocStep
  cases e.kind with
  | DEBIT =>
      by_cases h0 : e.amountDebit = 0
      · simpa [h0] using ⟨hlots, hsur⟩
      · simp only [h0, if_false]
        refine ⟨?_, ?_⟩
        · intro l hl
          rcases List.mem_append.mp hl with hl | hl
          · exact hlots l hl
          · rw [List.mem_singleton] at hl
            subst hl
            exact ⟨le_min hsur hd, min_le_right _ _⟩
        · have : min st.surplus e.amountDebit ≤ st.surplus := min_le_left _ _
          simp
  | CREDIT =>
      by_cases h0 : e.amountCredit = 0
      · simpa [h0] using ⟨hlots, hsur⟩
      · simp only [h0, if_false]
        obtain ⟨h1, h2⟩ := applyCredit_ok st.lots e.amountCredit hc hlots
        exact ⟨h1, by simpa using by omega⟩

theorem allocStep_originalSum (st : AllocState) (e : LedgerEntry)
    (he : EntryOk e) :
    originalSum (allocStep st e).lots = originalSum st.lots + e.amountDebit := by
  obtain ⟨_, _, hkd, hkc⟩ := he
  unfold allocStep
  cases hk : e.kind with
  | DEBIT =>
      by_cases h0 : e.amountDebit = 0
      · simp [h0]
      · simp [h0, originalSum]
  | CREDIT =>
      have : e.amountDebit = 0 := hkc hk
      by_cases h0 : e.amountCredit = 0
      · simp [h0, this]
      · simp only [h0, if_false, this, add_zero]
        exact applyCredit_originalSum st.lots e.amountCredit

theorem allocStep_settledSum (st : AllocState) (e : LedgerEntry)
    (he : EntryOk e) :
    settledSum (allocStep st e).lots + (allocStep st e).surplus =
      settledSum st.lots + st.surplus + e.amountCredit := by
  obtain ⟨_, _, hkd, hkc⟩ := he
  unfold allocStep
  cases hk : e.kind with
  | DEBIT =>
      have : e.amountCredit = 0 := hkd hk
      by_cases h0 : e.amountDebit = 0
      · simp [h0, this]
      · simp only [h0, if_false, this]
        simp only [settledSum, List.map_append, List.sum_append,
          List.map_cons, List.sum_cons, List.map_nil, List.sum_nil]
        omega
  | CREDIT =>
      by_cases h0 : e.amountCredit = 0
      · simp [h0]
      · simp only [h0, if_false]
        have := applyCredit_settledSum st.lots e.amountCredit
        simp only [settledSum] at this ⊢
        omega

theorem allocate_fold_inv (es : List LedgerEntry) (st : AllocState)
    (hok : ∀ e ∈ es, EntryOk e) (hst : StateOk st) :
    StateOk (es.foldl allocStep st) ∧
      originalSum (es.foldl allocStep st).lots =
        originalSum st.lots + totalDebit es ∧
      settledSum (es.foldl allocStep st).lots +
          (es.foldl allocStep st).surplus =
        settledSum st.lots + st.surplus + totalCredit es := by
  induction es generalizing st with
  | nil => simp [totalDebit, totalCredit, hst]
  | cons e es ih =>
      have he : EntryOk e := hok e (List.mem_cons_self e es)
      have hes : ∀ x ∈ es, EntryOk x := fun x hx => hok x (List.mem_cons_of_mem e hx)
      obtain ⟨h1, h2, h3⟩ := ih (allocStep st e) hes (allocStep_ok st e he hst)
      refine ⟨h1, ?_, ?_⟩
      · simp only [List.foldl_cons] at *
        rw [h2, allocStep_originalSum st e he]
        simp [totalDebit]
        omega
      · simp only [List.foldl_cons] at *
        rw [h3]
        have := allocStep_settledSum st e he
        simp only [totalCredit, List.map_cons, List.sum_cons]
        omega

theorem allocate_inv (es : List LedgerEntry) (hok : ∀ e ∈ es, EntryOk e) :
    StateOk (allocate es) ∧
      originalSum (allocate es).lots = totalDebit es ∧
      settledSum (allocate es).lots + (allocate es).surplus = totalCredit es := by
  have h := allocate_fold_inv es { lots := [], surplus := 0 } hok
    ⟨by intro l hl; simp at hl, le_refl 0⟩
  simpa [allocate, originalSum, settledSum] using h

/-- Over a well-formed lot queue, summing `remainingAmount` over only the
pending lots (remaining > 0) equals summing it over all lots: fully settled
lots contribute exactly zero. -/
theorem remaining_filter_sum (ls : List Lot) (h : ∀ l ∈ ls, LotOk l) :
    (((ls.filter (fun l => decide (0 < l.remainingAmount))).map
        Lot.remainingAmount).sum) =
      ((ls.map Lot.remainingAmount).sum) := by
  induction ls with
  | nil => simp
  | cons l ls ih =>
      have hl : LotOk l := h l (List.mem_cons_self l ls)
      have hls : ∀ x ∈ ls, LotOk x := fun x hx => h x (List.mem_cons_of_mem l hx)
      by_cases h0 : 0 < l.remainingAmount
      · simp [List.filter_cons, h0, ih hls]
      · have hz : l.remainingAmount = 0 := by
          rcases hl with ⟨h1, h2⟩
          simp only [Lot.remainingAmount] at h0 ⊢
          omega
        simp [List.filter_cons, h0, ih hls, hz]

/-- Sum of remaining amounts over all lots is `originalSum − settledSum`. -/
theorem remaining_sum (ls : List Lot) :
    ((ls.map Lot.remainingAmount).sum) = originalSum ls - settledSum ls := by
  induction ls with
  | nil => simp [originalSum, settledSum]
  | cons l ls ih =>
      simp only [List.map_cons, List.sum_cons, originalSum, settledSum] at *
      simp [Lot.remainingAmount]
      omega

/-- Allocation conservation: the amount payable equals
`totalDebit − totalCredit + surplus` — no amount is created or destroyed by
allocation (spec §8 allocation conservation, rearranged). -/
theorem amountPayable_conservation (es : List LedgerEntry)
    (hok : ∀ e ∈ es, EntryOk e) :
    amountPayable es = totalDebit es - totalCredit es + (allocate es).surplus := by
  obtain ⟨⟨hlots, _⟩, h2, h3⟩ := allocate_inv es hok
  unfold amountPayable pendingInvoices
  rw [remaining_filter_sum _ hlots, remaining_sum]
  omega

/-! ## Status Classifier (spec §4.3) -/

/-- Supplier payment status, a closed enum (spec §4.3, §9). -/
inductive Status where
  | QUITADO
  | EM_ABERTO
  | ADIANTADO
deriving DecidableEq, Repr

/-- Modelled from the spec: the Status Classifier — rules evaluated in order,
first match wins (spec §4.3): ADIANTADO if the unconsumed credit surplus
exceeds the tolerance; QUITADO if there are zero pending/partial invoices and
the final balance is within tolerance of zero; EM_ABERTO otherwise. -/
def classifyStatus (surplus : Int) (finalBal : Int) (pendingCount : Nat) :
    Status :=
  if TOL < surplus then Status.ADIANTADO
  else if pendingCount = 0 ∧ |finalBal| ≤ TOL then Status.QUITADO
  else Status.EM_ABERTO

/-- Modelled from the spec: a supplier's derived payment status (spec §3,
§4.3), from its entry list and opening balance. -/
def supplierStatus (opening : Option Int) (es : List LedgerEntry) : Status :=
  classifyStatus (allocate es).surplus (finalBalance opening es)
    (pendingInvoices es).length

/-! ## Divergence Detector (spec §4.4) -/

/-- Divergence severity (spec §3). -/
inductive Severity where
  | LOW
  | MEDIUM
  | HIGH
deriving DecidableEq, Repr

/-- Divergence category (spec §4.4). -/
inductive DivType where
  | BALANCE_MISMATCH
  | NEGATIVE_REMAINING
  | STALE_OPENING_BALANCE
deriving DecidableEq, Repr

/-- Modelled from the spec: one detected inconsistency for one supplier
(spec §3 Divergence); `accountCode` stands for the supplier reference and
`createdAt` for the wall-clock stamp of the reconciliation run. -/
structure Divergence where
  accountCode : String
  dtype : DivType
  severity : Severity
  difference : Int
  createdAt : Nat
deriving DecidableEq, Repr

/-- Modelled from the spec: the large-amount threshold above which a balance
mismatch is scored HIGH rather than MEDIUM (spec §4.4 names the threshold but
fixes no value; 1000.00 currency units = 100000 cents is used). -/
def BIG : Int := 100000

/-- Modelled from the spec: the BALANCE_MISMATCH check (spec §4.4) — a record
is produced iff `|amountPayable − max(0, finalBalance)| > tolerance`, with
severity HIGH when the difference exceeds the large-amount threshold and
MEDIUM otherwise; the signed difference is recorded. -/
def balanceMismatch (code : String) (payable finalBal : Int) (now : Nat) :
    Option Divergence :=
  if TOL < |payable - max 0 finalBal| then
    some { accountCode := code, dtype := DivType.BALANCE_MISMATCH,
           severity :=
             if BIG < |payable - max 0 finalBal| then Severity.HIGH
             else Severity.MEDIUM,
           difference := payable - max 0 finalBal, createdAt := now }
  else none

/-- Modelled from the spec: the NEGATIVE_REMAINING check (spec §4.4) — a HIGH
record when any pending invoice has `remainingAmount < −tolerance`. -/
def negativeRemaining (code : String) (pend : List Lot) (now : Nat) :
    Option Divergence :=
  if pend.any (fun l => decide (l.remainingAmount < -TOL)) then
    some { accountCode := code, dtype := DivType.NEGATIVE_REMAINING,
           severity := Severity.HIGH, difference := 0, createdAt := now }
  else none

/-- Modelled from the spec: the STALE_OPENING_BALANCE check (spec §4.4) — a
LOW record when an opening balance is present and non-zero but the supplier
has no entries at all. -/
def staleOpening (code : String) (opening : Option Int)
    (es : List LedgerEntry) (now : Nat) : Option Divergence :=
  match opening with
  | none => none
  | some ob =>
      if es = [] ∧ ob ≠ 0 then
        some { accountCode := code, dtype := DivType.STALE_OPENING_BALANCE,
               severity := Severity.LOW, difference := ob, createdAt := now }
      else none

/-- Modelled from the spec: all divergence checks for one supplier, each
producing at most one record per type (spec §4.4). -/
def detectDivergences (code : String) (opening : Option Int)
    (es : List LedgerEntry) (now : Nat) : List Divergence :=
  (balanceMismatch code (amountPayable es) (finalBalance opening es) now).toList
    ++ (negativeRemaining code (pendingInvoices es) now).toList
    ++ (staleOpening code opening es now).toList

/-! ## Reconciliation Orchestrator (spec §4.5) -/

/-- Modelled from the spec: the per-supplier input to reconciliation — the
supplier identity plus its ordered, immutable entry list (spec §3, §6). -/
structure SupplierInput where
  accountCode : String
  accountName : String
  openingBalance : Option Int
  entries : List LedgerEntry
deriving DecidableEq, Repr

/-- Modelled from the spec: a supplier summary row — the derived fields
recomputed from the entries on every run (spec §3 Supplier). -/
structure SupplierOutput where
  accountCode : String
  totalCredit : Int
  totalDebit : Int
  finalBalance : Int
  amountPayable : Int
  paymentStatus : Status
  pendingInvoiceCount : Nat
deriving DecidableEq, Repr

/-- Modelled from the spec: derive one supplier's summary row (spec §4.1–§4.3
composed by §4.5). -/
def reconcileSupplier (s : SupplierInput) : SupplierOutput :=
  { accountCode := s.accountCode,
    totalCredit := totalCredit s.entries,
    totalDebit := totalDebit s.entries,
    finalBalance := finalBalance s.openingBalance s.entries,
    amountPayable := amountPayable s.entries,
    paymentStatus := supplierStatus s.openingBalance s.entries,
    pendingInvoiceCount := (pendingInvoices s.entries).length }

/-- Modelled from the spec: the output of one reconciliation run of an
UploadBatch — supplier rows, pending-invoice rows per supplier, and
divergence rows stamped with the run's clock (spec §4.5, §6). -/
structure ReconcileOutput where
  suppliers : List SupplierOutput
  pendings : List (String × List Lot)
  divergences : List Divergence
deriving DecidableEq, Repr

/-- Modelled from the spec: the Reconciliation Orchestrator — per supplier of
the batch, run the Balance Accumulator, Payment Allocator, Status Classifier
and Divergence Detector, and assemble the results; `now` is the wall clock
used only for `createdAt` stamps on divergence rows (spec §4.5). -/
def reconcile (batch : List SupplierInput) (now : Nat) : ReconcileOutput :=
  { suppliers := batch.map reconcileSupplier,
    pendings := batch.map (fun s => (s.accountCode, pendingInvoices s.entries)),
    divergences := (batch.map (fun s =>
      detectDivergences s.accountCode s.openingBalance s.entries now)).flatten }

/-- The time-independent content of a divergence row: everything except the
`createdAt` stamp. -/
def Divergence.content (d : Divergence) : String × DivType × Severity × Int :=
  (d.accountCode, d.dtype, d.severity, d.difference)

/-! ## Frontend client (src/frontend/src/services/api.ts,
src/frontend/src/App.tsx) -/

/-- One supplier row as the client consumes it (`interface Fornecedor`,
src/frontend/src/services/api.ts).  Strings are embedded as `List Char` so
that the App.tsx search can be stated character-by-character; amounts are in
cents. -/
structure Fornecedor where
  id : Nat
  codigo_conta : List Char
  conta_contabil : List Char
  nome_fornecedor : List Char
  total_credito : Int
  total_debito : Int
  saldo_final : Int
  valor_a_pagar : Int
  status_pagamento : Status
  qtd_nfs_pendentes : Nat
  qtd_nfs_parciais : Nat
  divergencia_calculo : Bool
deriving DecidableEq, Repr

/-- The normalized supplier-list response the client hands to callers
(`interface ListaFornecedoresResponse`, src/frontend/src/services/api.ts):
the supplier array plus an optional total. -/
structure ListaFornecedoresResponse where
  fornecedores : List Fornecedor
  total : Option Nat
deriving DecidableEq, Repr

/-- The two response shapes the backend may send for the supplier-list
request, as `listarFornecedores` distinguishes them
(src/frontend/src/services/api.ts, `Array.isArray(data)`): a bare array of
suppliers, or an object already in the expected shape. -/
inductive BackendData where
  | arr (l : List Fornecedor)
  | obj (r : ListaFornecedoresResponse)
deriving DecidableEq, Repr

/-- The response normalization inside `listarFornecedores`
(src/frontend/src/services/api.ts lines 136–144): a bare array is wrapped as
`{ fornecedores: data }` (leaving `total` absent); anything else is returned
unchanged. -/
def normalizeListaResponse : BackendData → ListaFornecedoresResponse
  | BackendData.arr l => { fornecedores := l, total := none }
  | BackendData.obj r => r

/-- Modelled from the spec: the backend supplier-list status filter — exact
status match against the closed status enum, or unfiltered (spec §6 status
filter contract).  Only the frontend caller is in the repository. -/
def filterByStatus (l : List Fornecedor) (status : Option Status) :
    List Fornecedor :=
  match status with
  | none => l
  | some s => l.filter (fun f => decide (f.status_pagamento = s))

/-- The status filter choices the App offers (src/frontend/src/App.tsx
lines 941–950: options "", "EM_ABERTO", "QUITADO", "ADIANTADO"), with the
empty string as the unfiltered mode. -/
def statusFilterOptions : List (Option Status) :=
  [none, some Status.EM_ABERTO, some Status.QUITADO, some Status.ADIANTADO]

/-- The three export views of `exportarExcel`
(src/frontend/src/services/api.ts line 162: tipo is the closed union
'completo' | 'em_aberto' | 'divergencias'). -/
inductive ExportTipo where
  | completo
  | em_aberto
  | divergencias
deriving DecidableEq, Repr

/-- Modelled from the spec: the data of each export view, a pure function of
the already-computed reconciliation output (spec §6 export contract) —
"complete" is all suppliers, "open" those with status EM_ABERTO,
"divergences" those with at least one Divergence record.  Only the
frontend trigger is in the repository. -/
def exportView (tipo : ExportTipo) (suppliers : List Fornecedor)
    (divs : List Divergence) : List Fornecedor :=
  match tipo with
  | ExportTipo.completo => suppliers
  | ExportTipo.em_aberto =>
      suppliers.filter (fun f => decide (f.status_pagamento = Status.EM_ABERTO))
  | ExportTipo.divergencias =>
      suppliers.filter (fun f =>
        divs.any (fun d => decide (d.accountCode.toList = f.codigo_conta)))

/-- `hay` begins with `pat`, character by character. -/
def beginsWith : List Char → List Char → Bool
  | _, [] => true
  | [], _ :: _ => false
  | c :: cs, d :: ds => decide (c = d) && beginsWith cs ds

/-- JavaScript's `String.prototype.includes`: `pat` occurs contiguously
somewhere in `hay` (the empty pattern occurs in every string). -/
def occursIn (hay pat : List Char) : Bool :=
  match hay with
  | [] => pat.isEmpty
  | _ :: rest => beginsWith hay pat || occursIn rest pat

/-- Lower-casing of a string, character by character (JavaScript
`toLowerCase`). -/
def lowerStr (s : List Char) : List Char :=
  s.map Char.toLower

/-- The client-side search of the App (src/frontend/src/App.tsx lines
817–820): keep a supplier when its name contains the search string
case-insensitively, or its account code contains it case-sensitively. -/
def fornecedoresFiltrados (fornecedores : List Fornecedor)
    (busca : List Char) : List Fornecedor :=
  fornecedores.filter (fun f =>
    occursIn (lowerStr f.nome_fornecedor) (lowerStr busca) ||
      occursIn f.codigo_conta busca)

/-! ## Supporting lemmas -/

theorem amountPayable_nonneg (es : List LedgerEntry) : 0 ≤ amountPayable es := by
  unfold amountPayable
  apply List.sum_nonneg
  intro x hx
  obtain ⟨l, hl, rfl⟩ := List.mem_map.mp hx
  have := (List.mem_filter.mp hl).2
  have := of_decide_eq_true this
  omega

theorem beginsWith_iff (hay pat : List Char) :
    beginsWith hay pat = true ↔ List.IsPrefix pat hay := by
  induction hay generalizing pat with
  | nil =>
      cases pat with
      | nil => simp [beginsWith]
      | cons d ds => simp [beginsWith]
  | cons c cs ih =>
      cases pat with
      | nil => simp [beginsWith]
      | cons d ds =>
          simp only [beginsWith, Bool.and_eq_true, decide_eq_true_eq, ih]
          rw [List.cons_prefix_cons]
          tauto

theorem occursIn_iff (hay pat : List Char) :
    occursIn hay pat = true ↔ List.IsInfix pat hay := by
  induction hay with
  | nil =>
      cases pat with
      | nil => simp [occursIn]
      | cons d ds => simp [occursIn]
  | cons c cs ih =>
      simp only [occursIn, Bool.or_eq_true, beginsWith_iff, ih]
      rw [List.infix_cons_iff]

theorem occursIn_nil (hay : List Char) : occursIn hay [] = true := by
  cases hay with
  | nil => rfl
  | cons c cs => simp [occursIn, beginsWith]

theorem balanceMismatch_stamp (c : String) (p f : Int) (t : Nat) :
    balanceMismatch c p f t =
      (balanceMismatch c p f 0).map (fun d => { d with createdAt := t }) := by
  unfold balanceMismatch
  by_cases h : TOL < |p - max 0 f|
  · simp [h]
  · simp [h]

theorem negativeRemaining_stamp (c : String) (pend : List Lot) (t : Nat) :
    negativeRemaining c pend t =
      (negativeRemaining c pend 0).map (fun d => { d with createdAt := t }) := by
  unfold negativeRemaining
  by_cases h : pend.any (fun l => decide (l.remainingAmount < -TOL))
  · simp [h]
  · simp [h]

theorem staleOpening_stamp (c : String) (opening : Option Int)
    (es : List LedgerEntry) (t : Nat) :
    staleOpening c opening es t =
      (staleOpening c opening es 0).map (fun d => { d with createdAt := t }) := by
  unfold staleOpening
  cases opening with
  | none => rfl
  | some ob =>
      by_cases h : es = [] ∧ ob ≠ 0
      · simp [h]
      · simp [h]

theorem detectDivergences_stamp (c : String) (opening : Option Int)
    (es : List LedgerEntry) (t : Nat) :
    detectDivergences c opening es t =
      (detectDivergences c opening es 0).map
        (fun d => { d with createdAt := t }) := by
  unfold detectDivergences
  rw [balanceMismatch_stamp, negativeRemaining_stamp, staleOpening_stamp]
  cases balanceMismatch c (amountPayable es) (finalBalance opening es) 0 <;>
    cases negativeRemaining c (pendingInvoices es) 0 <;>
      cases staleOpening c opening es 0 <;> rfl

theorem divergences_stamp (batch : List SupplierInput) (t : Nat) :
    (reconcile batch t).divergences =
      (reconcile batch 0).divergences.map (fun d => { d with createdAt := t }) := by
  unfold reconcile
  simp only [List.map_flatten, List.map_map]
  apply congrArg List.flatten
  apply List.map_congr_left
  intro s _
  exact detectDivergences_stamp s.accountCode s.openingBalance s.entries t

/-! ## Concrete entry sequences from the spec's test properties (§8) -/

/-- A DEBIT entry (invoice/purchase) on the given day, amount in cents. -/
def debitEntry (d : Nat) (a : Int) : LedgerEntry :=
  { date := d, kind := Kind.DEBIT, amountDebit := a, amountCredit := 0 }

/-- A CREDIT entry (payment) on the given day, amount in cents. -/
def creditEntry (d : Nat) (a : Int) : LedgerEntry :=
  { date := d, kind := Kind.CREDIT, amountDebit := 0, amountCredit := a }

/-- `[DEBIT 100 on day1, DEBIT 50 on day2, CREDIT 120 on day3]` in cents. -/
def exampleFifo : List LedgerEntry :=
  [debitEntry 1 10000, debitEntry 2 5000, creditEntry 3 12000]

/-- `[DEBIT 100, CREDIT 150]` in cents. -/
def exampleSurplus : List LedgerEntry :=
  [debitEntry 1 10000, creditEntry 2 15000]

/-- `[DEBIT 80, CREDIT 80]` in cents. -/
def exampleSettled : List LedgerEntry :=
  [debitEntry 1 8000, creditEntry 2 8000]

/-! ## Claims -/

/-- C1: for `[DEBIT 100 on day1, DEBIT 50 on day2, CREDIT 120 on day3]`, the
FIFO allocator settles the day-1 lot fully (amountSettled = 100), settles the
day-2 lot partially (amountSettled = 20, remainingAmount = 30), the status is
EM_ABERTO and amountPayable = 30 (amounts in cents). -/
theorem claim_C1_fifo_determinism :
    (allocate exampleFifo).lots =
      [{ date := 1, originalAmount := 10000, amountSettled := 10000 },
       { date := 2, originalAmount := 5000, amountSettled := 2000 }] ∧
    pendingInvoices exampleFifo =
      [{ date := 2, originalAmount := 5000, amountSettled := 2000 }] ∧
    (Lot.remainingAmount
      { date := 2, originalAmount := 5000, amountSettled := 2000 }) = 3000 ∧
    supplierStatus none exampleFifo = Status.EM_ABERTO ∧
    amountPayable exampleFifo = 3000 := by
  decide

/-- C2: for every supplier, `finalBalance = openingBalance + totalCredit −
totalDebit` exactly, with the opening balance defaulting to 0 when absent. -/
theorem claim_C2_balance_identity (opening : Option Int)
    (es : List LedgerEntry) :
    finalBalance opening es = opening.getD 0 + totalCredit es - totalDebit es ∧
    finalBalance none es = totalCredit es - totalDebit es := by
  constructor
  · exact foldl_balStep es (opening.getD 0)
  · have h := foldl_balStep es ((none : Option Int).getD 0)
    simpa [finalBalance] using h

/-- C3 (counterexample): for `[DEBIT 100, DEBIT 50, CREDIT 120]` the surplus
is zero, amountPayable = 30 (3000 cents) but `max(0, finalBalance)` = 0
(finalBalance = −30 under the spec's sign convention
`finalBalance = openingBalance + totalCredit − totalDebit`), so the claimed
identity `amountPayable = max(0, finalBalance)` fails. -/
theorem claim_C3_counterexample :
    (allocate exampleFifo).surplus = 0 ∧
    amountPayable exampleFifo = 3000 ∧
    finalBalance none exampleFifo = -3000 ∧
    amountPayable exampleFifo ≠ max 0 (finalBalance none exampleFifo) := by
  decide

/-- C3 (amended): amountPayable is the sum of remainingAmount over the
PendingInvoice records, and whenever the unconsumed credit surplus is zero it
equals `max(0, openingBalance − finalBalance)` (the amount still owed under
the spec's sign convention); for `[DEBIT 80, CREDIT 80]` there are no pending
invoices, the status is QUITADO and amountPayable = 0. -/
theorem claim_C3_amountPayable (es : List LedgerEntry) (opening : Option Int)
    (hok : ∀ e ∈ es, EntryOk e) :
    amountPayable es = ((pendingInvoices es).map Lot.remainingAmount).sum ∧
    ((allocate es).surplus = 0 →
      amountPayable es = max 0 (opening.getD 0 - finalBalance opening es)) ∧
    (pendingInvoices exampleSettled = [] ∧
      supplierStatus none exampleSettled = Status.QUITADO ∧
      amountPayable exampleSettled = 0) := by
  refine ⟨rfl, ?_, by decide⟩
  intro hs
  have hc := amountPayable_conservation es hok
  have hn := amountPayable_nonneg es
  have hfb : finalBalance opening es =
      opening.getD 0 + totalCredit es - totalDebit es :=
    foldl_balStep es (opening.getD 0)
  omega

theorem claim_C3_witness :
    (∀ e ∈ exampleFifo, EntryOk e) ∧
    amountPayable exampleFifo =
      ((pendingInvoices exampleFifo).map Lot.remainingAmount).sum :=
  ⟨by decide, (claim_C3_amountPayable exampleFifo none (by decide)).1⟩

/-- C4: for `[DEBIT 100, CREDIT 150]` the allocator leaves no pending
invoices and an unconsumed surplus of 50 (5000 cents), and the Status
Classifier assigns ADIANTADO; its first rule fires for any surplus above the
tolerance, regardless of the final balance or the pending count (it is
evaluated before the QUITADO and EM_ABERTO rules). -/
theorem claim_C4_surplus_adiantado :
    (pendingInvoices exampleSurplus = [] ∧
      (allocate exampleSurplus).surplus = 5000 ∧
      supplierStatus none exampleSurplus = Status.ADIANTADO) ∧
    ∀ (s f : Int) (n : Nat), TOL < s → classifyStatus s f n = Status.ADIANTADO := by
  refine ⟨by decide, ?_⟩
  intro s f n h
  unfold classifyStatus
  rw [if_pos h]

theorem claim_C4_witness :
    TOL < 5000 ∧ classifyStatus 5000 0 0 = Status.ADIANTADO :=
  ⟨by decide, claim_C4_surplus_adiantado.2 5000 0 0 (by decide)⟩

/-- C5: the BALANCE_MISMATCH check is a strict absolute threshold — a
difference of exactly the tolerance produces no divergence record, a
difference of tolerance + 0.01 (one more cent) produces one. -/
theorem claim_C5_tolerance_boundary (code : String) (p f : Int) (now : Nat) :
    (|p - max 0 f| = TOL → balanceMismatch code p f now = none) ∧
    (|p - max 0 f| = TOL + 1 →
      (balanceMismatch code p f now).isSome = true) := by
  constructor
  · intro h
    unfold balanceMismatch
    rw [if_neg (by rw [h]; omega)]
  · intro h
    unfold balanceMismatch
    rw [if_pos (by rw [h]; omega)]
    rfl

theorem claim_C5_witness :
    (|(1 : Int) - max 0 0| = TOL ∧ balanceMismatch "F001" 1 0 7 = none) ∧
    (|(2 : Int) - max 0 0| = TOL + 1 ∧
      (balanceMismatch "F001" 2 0 7).isSome = true) :=
  ⟨⟨by decide, (claim_C5_tolerance_boundary "F001" 1 0 7).1 (by decide)⟩,
   ⟨by decide, (claim_C5_tolerance_boundary "F001" 2 0 7).2 (by decide)⟩⟩

/-- C6: running the Reconciliation Orchestrator on the same batch at any two
run clocks yields identical supplier and pending-invoice results and a
divergence set equal in cardinality and content — the `createdAt` stamp is
the only time-dependent datum, so two runs on unchanged entries agree. -/
theorem claim_C6_idempotence (batch : List SupplierInput) (t1 t2 : Nat) :
    (reconcile batch t1).suppliers = (reconcile batch t2).suppliers ∧
    (reconcile batch t1).pendings = (reconcile batch t2).pendings ∧
    (reconcile batch t1).divergences.map Divergence.content =
      (reconcile batch t2).divergences.map Divergence.content ∧
    (reconcile batch t1).divergences.length =
      (reconcile batch t2).divergences.length := by
  refine ⟨rfl, rfl, ?_, ?_⟩
  · rw [divergences_stamp batch t1, divergences_stamp batch t2]
    simp only [List.map_map]
    rfl
  · rw [divergences_stamp batch t1, divergences_stamp batch t2]
    simp only [List.length_map]

/-- C7: the supplier list supports exactly the status filters EM_ABERTO,
QUITADO and ADIANTADO plus the unfiltered mode, and filtering by a status
keeps precisely the suppliers whose payment status equals it. -/
theorem claim_C7_status_filter (l : List Fornecedor) (s : Status)
    (f : Fornecedor) :
    filterByStatus l none = l ∧
    (f ∈ filterByStatus l (some s) ↔ f ∈ l ∧ f.status_pagamento = s) ∧
    statusFilterOptions =
      [none, some Status.EM_ABERTO, some Status.QUITADO,
        some Status.ADIANTADO] := by
  refine ⟨rfl, ?_, rfl⟩
  simp [filterByStatus, List.mem_filter]

/-- C8: the export operation offers exactly the three views of the tipo
union; "complete" is all suppliers, "open" exactly those with status
EM_ABERTO, "divergences" exactly those with at least one Divergence record. -/
theorem claim_C8_export_views (sup : List Fornecedor) (divs : List Divergence)
    (f : Fornecedor) :
    exportView ExportTipo.completo sup divs = sup ∧
    (f ∈ exportView ExportTipo.em_aberto sup divs ↔
      f ∈ sup ∧ f.status_pagamento = Status.EM_ABERTO) ∧
    (f ∈ exportView ExportTipo.divergencias sup divs ↔
      f ∈ sup ∧ ∃ d ∈ divs, d.accountCode.toList = f.codigo_conta) := by
  refine ⟨rfl, ?_, ?_⟩
  · simp [exportView, List.mem_filter]
  · simp [exportView, List.mem_filter, List.any_eq_true]

/-- C9: the client's `listarFornecedores` always returns the normalized
shape — a bare-array backend response is wrapped as `{ fornecedores: array }`
with `total` absent, and a non-array response is returned unchanged. -/
theorem claim_C9_response_shape (l : List Fornecedor)
    (r : ListaFornecedoresResponse) :
    normalizeListaResponse (BackendData.arr l) =
      { fornecedores := l, total := none } ∧
    normalizeListaResponse (BackendData.obj r) = r :=
  ⟨rfl, rfl⟩

/-- C10: the client-side search keeps a supplier iff its name contains the
search string case-insensitively or its account code contains it
case-sensitively, and the empty search keeps every supplier. -/
theorem claim_C10_search (l : List Fornecedor) (busca : List Char)
    (f : Fornecedor) :
    (f ∈ fornecedoresFiltrados l busca ↔
      f ∈ l ∧ (List.IsInfix (lowerStr busca) (lowerStr f.nome_fornecedor) ∨
        List.IsInfix busca f.codigo_conta)) ∧
    fornecedoresFiltrados l [] = l := by
  constructor
  · simp [fornecedoresFiltrados, List.mem_filter, occursIn_iff]
  · unfold fornecedoresFiltrados
    rw [List.filter_eq_self.mpr]
    intro x _
    simp [lowerStr, occursIn_nil]

end ConBank
